import Mathlib

/-!
Shallow embedding of the core of the mordor repository: the pipelined
HTTP/1.x client connection declared in src/mordor/common/http/client.h and
the logging substrate declared in src/mordor/log.h.  The repository snapshot
ships only these two headers; every member-function body lives in translation
units that are absent, so each operation is modelled from the specification
(and from the documentation inside the headers), as noted on its definition.
-/

namespace Mordor

/-- Log levels, from src/mordor/log.h lines 78-106: the enumerators are
declared in the order NONE, FATAL, ERROR, WARNING, INFO, VERBOSE, DEBUG,
TRACE, so the underlying enumerator value grows as severity falls. -/
inductive Level where
  | NONE
  | FATAL
  | ERROR
  | WARNING
  | INFO
  | VERBOSE
  | DEBUG
  | TRACE
deriving DecidableEq

/-- The underlying enumerator value of a level, per the declaration order in
src/mordor/log.h. -/
def Level.toNat : Level → Nat
  | .NONE => 0
  | .FATAL => 1
  | .ERROR => 2
  | .WARNING => 3
  | .INFO => 4
  | .VERBOSE => 5
  | .DEBUG => 6
  | .TRACE => 7

/-- The seven message levels in the decreasing-severity order given by the
spec: FATAL, ERROR, WARNING, INFO, VERBOSE, DEBUG, TRACE. -/
def severityList : List Level :=
  [.FATAL, .ERROR, .WARNING, .INFO, .VERBOSE, .DEBUG, .TRACE]

/-- Position of a level in severityList (7 when absent): a smaller rank means
a more severe level. -/
def severityRank (l : Level) : Nat :=
  severityList.findIdx (fun x => decide (x = l))

/-- Follows the words of the claim, not the source: level a is no more severe than
level b. -/
def specNoMoreSevere (a b : Level) : Bool :=
  decide (severityRank b ≤ severityRank a)

/-- Follows the words of the amended claim, not the source: level a is at least as
severe as level b. -/
def specNoLessSevere (a b : Level) : Bool :=
  decide (severityRank a ≤ severityRank b)

/-- Modelled from the spec: the body of Logger::enabled lives in a
translation unit absent from the snapshot; src/mordor/log.h line 289 declares
it and the header documentation fixes its semantics (a logger set to
WARNING drops INFO but passes ERROR, and each higher level is a superset of
the prior level), so a logger configured at c is enabled at l iff the
enumerator value of l does not exceed that of c. -/
def enabledAt (configured l : Level) : Bool :=
  decide (l.toNat ≤ configured.toNat)

/-- Per-logger state, from the private fields of class Logger in
src/mordor/log.h lines 321-327: a level, a sink list and the inherit-sinks
flag.  Logger names are colon-separated strings in the source; name
components are opaque keys here, and sinks are identified by opaque keys as
well. -/
structure LoggerData where
  level : Level
  sinks : List Nat
  inheritSinks : Bool
deriving DecidableEq

/-- Modelled from the spec: the Logger constructors live in the absent
translation unit; src/mordor/log.h line 57 documents that by default all
loggers have no sinks and are set at INFO level, and inherit-sinks starts
true. -/
def defaultLoggerData : LoggerData :=
  { level := Level.INFO, sinks := [], inheritSinks := true }

/-- The process-wide logger registry: an association list from name paths
(lists of name components, the root being the empty path) to logger state,
from the Logger hierarchy of src/mordor/log.h. -/
structure LogRegistry where
  loggers : List (List Nat × LoggerData)
deriving DecidableEq

/-- First association for a path in a registry entry list. -/
def assocFind : List (List Nat × LoggerData) → List Nat → Option LoggerData
  | [], _ => none
  | e :: rest, p => if e.1 = p then some e.2 else assocFind rest p

/-- The state of the logger registered at path p, if any. -/
def findLogger (reg : LogRegistry) (p : List Nat) : Option LoggerData :=
  assocFind reg.loggers p

/-- Register the logger at path p with default state when it is absent. -/
def ensureLogger (reg : LogRegistry) (p : List Nat) : LogRegistry :=
  match findLogger reg p with
  | some _ => reg
  | none => ⟨(p, defaultLoggerData) :: reg.loggers⟩

/-- The path of every logger from p up to the root: p itself, then each
successively shorter ancestor, ending with the empty path of the root. -/
def ancestorPaths (p : List Nat) : List (List Nat) :=
  ((List.range (p.length + 1)).map (fun i => List.take i p)).reverse

/-- Modelled from the spec: Log::lookup (src/mordor/log.h line 109, body
absent) finds or creates the named logger, implicitly creating intermediate
loggers as needed. -/
def lookupLogger (reg : LogRegistry) (p : List Nat) : LogRegistry :=
  (ancestorPaths p).foldl ensureLogger reg

/-- The registry at process start: only the root logger (Log::root,
src/mordor/log.h line 117) exists. -/
def initialRegistry : LogRegistry :=
  ⟨[([], defaultLoggerData)]⟩

/-- Modelled from the spec: the delivery walk of Logger::log — deliver to the
sinks of the current logger and continue to the parent while the inherit-sinks
flag holds, so the walk stops at the first logger, inclusive, whose flag is
false. -/
def deliverChain : List LoggerData → List Nat
  | [] => []
  | d :: rest => d.sinks ++ (if d.inheritSinks then deliverChain rest else [])

/-- The registered loggers on the ancestor chain of p, nearest first. -/
def chainData (reg : LogRegistry) (p : List Nat) : List LoggerData :=
  (ancestorPaths p).filterMap (findLogger reg)

/-- Modelled from the spec: emitting one message from the logger at p — the
sinks that receive it, walking the ancestor chain. -/
def emitLog (reg : LogRegistry) (p : List Nat) : List Nat :=
  deliverChain (chainData reg p)

/-- The MORDOR_LOG_LEVEL macro of src/mordor/log.h lines 341-342: the message
is built and emitted only under the enabled check of the originating logger. -/
def mordorLogLevel (reg : LogRegistry) (p : List Nat) (l : Level) : List Nat :=
  match findLogger reg p with
  | none => []
  | some d => if enabledAt d.level l then emitLog reg p else []

/-- The error kinds of spec section 7.  The TransportIO kind is rendered
transportErr here. -/
inductive Fault where
  | transportErr
  | framing
  | shortWrite
  | connectionClosed
  | cancelled
  | aborted
  | protocolMisuse
deriving DecidableEq

/-- One logical HTTP exchange: the state flags of class ClientRequest,
src/mordor/common/http/client.h line 57, with the submission index standing
in for the object identity and closeDirective recording whether the caller
supplied headers carrying a close directive. -/
structure ClientRequest where
  id : Nat
  closeDirective : Bool
  requestDone : Bool
  hasResponse : Bool
  hasTrailer : Bool
  responseDone : Bool
  inFlight : Bool
  cancelled : Bool
  aborted : Bool
deriving DecidableEq

/-- A freshly admitted request: every flag clear. -/
def newRequest (id : Nat) (closeDirective : Bool) : ClientRequest :=
  { id := id, closeDirective := closeDirective, requestDone := false,
    hasResponse := false, hasTrailer := false, responseDone := false,
    inFlight := false, cancelled := false, aborted := false }

/-- The submission indices of a request list, in list order. -/
def reqIds (l : List ClientRequest) : List Nat := l.map (fun r => r.id)

/-- Modelled from the spec: ClientRequest::responseTrailer
(src/mordor/common/http/client.h line 39, body absent) is accessible only
after the response stream has been consumed to EOF; before that it fails with
ProtocolMisuse (spec sections 4.2 and 7). -/
def ClientRequest.responseTrailer (r : ClientRequest) : Except Fault Unit :=
  if r.hasTrailer then Except.ok () else Except.error Fault.protocolMisuse

/-- The connection state of class ClientConnection,
src/mordor/common/http/client.h lines 76-84.  m_waitingResponses is declared
std::set in the header; the spec states its iteration order is the submission
order, and with the implementation absent it is modelled as a
submission-ordered list.  completedResponses is a history variable recording
submission indices of responses in completion order, and retired holds
requests the connection no longer tracks in either queue. -/
structure ClientConnection where
  pendingRequests : List ClientRequest
  waitingResponses : List ClientRequest
  retired : List ClientRequest
  completedResponses : List Nat
  allowNewRequests : Bool
  requestFault : Option Fault
  responseFault : Option Fault
  nextId : Nat
deriving DecidableEq

/-- A fresh connection: empty queues, new requests allowed, no sticky
faults. -/
def ClientConnection.initial : ClientConnection :=
  { pendingRequests := [], waitingResponses := [], retired := [],
    completedResponses := [], allowNewRequests := true,
    requestFault := none, responseFault := none, nextId := 0 }

/-- Observable effects of an operation: transport I/O and parking the calling
task (spec sections 5 and 6). -/
inductive Event where
  | transportRead
  | transportWrite
  | park
deriving DecidableEq

/-- Modelled from the spec: the success path of ClientConnection::request
(spec section 4.1) — append a fresh request to pendingRequests, and clear
allowNewRequests when the admitted headers carry a close directive. -/
def ClientConnection.acceptRequest (c : ClientConnection) (closeDirective : Bool) :
    ClientConnection :=
  { c with
      pendingRequests := c.pendingRequests ++ [newRequest c.nextId closeDirective],
      allowNewRequests := c.allowNewRequests && !closeDirective,
      nextId := c.nextId + 1 }

/-- Modelled from the spec: ClientConnection::request
(src/mordor/common/http/client.h line 69, body absent): fails with
ConnectionClosed unless allowNewRequests holds, otherwise admits the request
and returns its handle immediately; the empty event list records that it
performs no I/O and never parks. -/
def ClientConnection.request (c : ClientConnection) (closeDirective : Bool) :
    Except Fault (ClientConnection × Nat) × List Event :=
  if c.allowNewRequests then
    (Except.ok (c.acceptRequest closeDirective, c.nextId), [])
  else
    (Except.error Fault.connectionClosed, [])

/-- Modelled from the spec: the queued-to-writing transition (spec section
4.1) — the head-of-line writer obtains the write slot and sets inFlight. -/
def ClientConnection.startWrite (c : ClientConnection) : ClientConnection :=
  match c.pendingRequests with
  | [] => c
  | r :: rest => { c with pendingRequests := { r with inFlight := true } :: rest }

/-- Modelled from the spec: the writing-to-written transition
(ClientRequest::requestDone, spec section 4.1) — clear inFlight and move the
head-of-line writer from pendingRequests to the back of waitingResponses. -/
def ClientConnection.finishWrite (c : ClientConnection) : ClientConnection :=
  match c.pendingRequests with
  | [] => c
  | r :: rest =>
    { c with
        pendingRequests := rest,
        waitingResponses :=
          c.waitingResponses ++ [{ r with inFlight := false, requestDone := true }] }

/-- Modelled from the spec: the awaiting-to-reading-headers transition (spec
section 4.1) — the head-of-line reader parses the response headers. -/
def ClientConnection.readHeaders (c : ClientConnection) : ClientConnection :=
  match c.waitingResponses with
  | [] => c
  | r :: rest => { c with waitingResponses := { r with hasResponse := true } :: rest }

/-- Modelled from the spec: the reading-body-to-done transition
(ClientRequest::responseDone, spec section 4.1) — the head-of-line reader
leaves waitingResponses with its trailer received, its completion is
recorded, and a close directive on the response clears allowNewRequests. -/
def ClientConnection.finishResponse (c : ClientConnection) (respClose : Bool) :
    ClientConnection :=
  match c.waitingResponses with
  | [] => c
  | r :: rest =>
    { c with
        waitingResponses := rest,
        retired := c.retired ++ [{ r with hasTrailer := true, responseDone := true }],
        completedResponses := c.completedResponses ++ [r.id],
        allowNewRequests := c.allowNewRequests && !respClose }

/-- Modelled from the spec: a write-side fault
(ClientConnection::scheduleAllWaitingRequests, header lines 73-74; spec
section 4.1) — record the sticky requestFault, stop admitting new requests,
and wake every pending request so each observes the fault; the second
component lists the fault delivered to each of them, in order. -/
def ClientConnection.failRequestSide (c : ClientConnection) (f : Fault) :
    ClientConnection × List (Nat × Fault) :=
  ({ c with
      requestFault := some f,
      allowNewRequests := false,
      pendingRequests := [],
      retired := c.retired ++
        c.pendingRequests.map (fun r => { r with inFlight := false, aborted := true }) },
   (reqIds c.pendingRequests).map (fun i => (i, f)))

/-- Modelled from the spec: a read-side fault
(ClientConnection::scheduleAllWaitingResponses, header line 74; spec section
4.1) — record the sticky responseFault, stop admitting new requests, and wake
every waiting response so each observes the fault; the second component lists
the fault delivered to each of them, in order. -/
def ClientConnection.failResponseSide (c : ClientConnection) (f : Fault) :
    ClientConnection × List (Nat × Fault) :=
  ({ c with
      responseFault := some f,
      allowNewRequests := false,
      waitingResponses := [],
      retired := c.retired ++
        c.waitingResponses.map (fun r => { r with inFlight := false, aborted := true }) },
   (reqIds c.waitingResponses).map (fun i => (i, f)))

/-- Modelled from the spec: the next write-side step of a request
(ClientRequest::requestStream and doRequest; spec section 4.2): a sticky
requestFault is surfaced first; otherwise the current writer proceeds and a
queued request parks. -/
def tryWrite (c : ClientConnection) (r : ClientRequest) : Option (Except Fault Unit) :=
  match c.requestFault with
  | some f => some (Except.error f)
  | none => if r.inFlight then some (Except.ok ()) else none

/-- Modelled from the spec: ClientRequest::response and ensureResponse (spec
section 4.2): a cached response is returned, a sticky responseFault is
surfaced, and otherwise the caller parks until its headers arrive. -/
def tryResponse (c : ClientConnection) (r : ClientRequest) : Option (Except Fault Unit) :=
  if r.hasResponse then some (Except.ok ())
  else
    match c.responseFault with
    | some f => some (Except.error f)
    | none => none

/-- The request with submission index rid, among the requests the connection
has ever tracked. -/
def findReq (c : ClientConnection) (rid : Nat) : Option ClientRequest :=
  (c.pendingRequests ++ c.waitingResponses ++ c.retired).find?
    (fun r => decide (r.id = rid))

/-- Modelled from the spec: cancel with abort = true (spec sections 4.2 and
5) — forcibly fail the transport: both sides take a sticky Aborted fault (an
earlier fault is kept), no new requests are admitted, and every pending and
waiting request is retired with its aborted flag set. -/
def ClientConnection.abortAll (c : ClientConnection) : ClientConnection :=
  { c with
      pendingRequests := [],
      waitingResponses := [],
      retired := c.retired ++
        (c.pendingRequests ++ c.waitingResponses).map
          (fun q => { q with inFlight := false, aborted := true }),
      allowNewRequests := false,
      requestFault := some (c.requestFault.getD Fault.aborted),
      responseFault := some (c.responseFault.getD Fault.aborted) }

/-- Set the cancelled flag on the request with submission index rid, leaving
other requests alone. -/
def markCancelled (rid : Nat) (q : ClientRequest) : ClientRequest :=
  if q.id = rid then { q with cancelled := true } else q

/-- Modelled from the spec: ClientRequest::cancel
(src/mordor/common/http/client.h line 41, body absent), from spec sections
4.2 and 8: cancelling a completed request is a no-op; abort forcibly fails
the whole connection; a graceful cancel removes a not-yet-writing request
from pendingRequests and retires it, and otherwise just marks the request
cancelled. -/
def ClientConnection.cancel (c : ClientConnection) (rid : Nat) (abort : Bool) :
    ClientConnection :=
  match findReq c rid with
  | none => c
  | some r =>
    if r.requestDone && r.responseDone then c
    else if abort then c.abortAll
    else
      match c.pendingRequests.find? (fun q => decide (q.id = rid)) with
      | some p =>
        if p.inFlight then
          { c with
              pendingRequests := c.pendingRequests.map (markCancelled rid) }
        else
          { c with
              pendingRequests := c.pendingRequests.filter
                (fun q => decide (q.id ≠ rid)),
              retired := c.retired ++ [{ p with cancelled := true }] }
      | none =>
        { c with
            waitingResponses := c.waitingResponses.map (markCancelled rid) }

/-- Whether the head of a request list is currently writing. -/
def headInFlight : List ClientRequest → Bool
  | [] => false
  | r :: _ => r.inFlight

/-- Whether the head of a request list has parsed response headers. -/
def headHasResponse : List ClientRequest → Bool
  | [] => false
  | r :: _ => r.hasResponse

/-- Modelled from the spec: one dispatch transition of the connection state
machine (spec sections 4.1 and 4.2), each with the guard under which it
fires. -/
inductive Step : ClientConnection → ClientConnection → Prop
  | accept {c : ClientConnection} (d : Bool) (h : c.allowNewRequests = true) :
      Step c (c.acceptRequest d)
  | startWrite {c : ClientConnection} (h : c.requestFault = none)
      (hidle : c.pendingRequests.all (fun r => !r.inFlight) = true) :
      Step c c.startWrite
  | finishWrite {c : ClientConnection} (h : headInFlight c.pendingRequests = true) :
      Step c c.finishWrite
  | readHeaders {c : ClientConnection} (h : c.responseFault = none) :
      Step c c.readHeaders
  | finishResponse {c : ClientConnection} (respClose : Bool)
      (h : headHasResponse c.waitingResponses = true) :
      Step c (c.finishResponse respClose)
  | failRequest {c : ClientConnection} (f : Fault) (h : c.requestFault = none) :
      Step c (c.failRequestSide f).1
  | failResponse {c : ClientConnection} (f : Fault) (h : c.responseFault = none) :
      Step c (c.failResponseSide f).1
  | cancelReq {c : ClientConnection} (rid : Nat) (abort : Bool) :
      Step c (c.cancel rid abort)

/-- The connection states reachable from a fresh connection by dispatch
transitions. -/
inductive Reachable : ClientConnection → Prop
  | init : Reachable ClientConnection.initial
  | step {c c' : ClientConnection} (hr : Reachable c) (hs : Step c c') :
      Reachable c'

/-- Every submission index the connection still orders: completed responses,
then waiting responses, then pending requests. -/
def allIds (c : ClientConnection) : List Nat :=
  c.completedResponses ++ reqIds c.waitingResponses ++ reqIds c.pendingRequests

/-- The connection invariant (ClientConnection::invariant, header line 84,
modelled from spec sections 3 and 5): submission indices appear in strictly
increasing order across completed, waiting and pending; all indices are below
nextId; at most one request is writing, and only a pending one can be;
requests not yet done reading have no trailer; retired requests have a
trailer exactly when their response was fully consumed. -/
structure ConnInv (c : ClientConnection) : Prop where
  sortedAll : List.Sorted (· < ·) (allIds c)
  idsLt : ∀ i ∈ allIds c, i < c.nextId
  onceInFlight :
    List.Pairwise (fun a b => a.inFlight = false ∨ b.inFlight = false) c.pendingRequests
  waitIdle : ∀ r ∈ c.waitingResponses, r.inFlight = false
  retiredIdle : ∀ r ∈ c.retired, r.inFlight = false
  activeFlags : ∀ r ∈ c.pendingRequests ++ c.waitingResponses,
    r.hasTrailer = false ∧ r.responseDone = false
  retiredTrailer : ∀ r ∈ c.retired, r.hasTrailer = r.responseDone

/-- Demonstration trace, step 1: one request admitted on a fresh
connection. -/
def demo1 : ClientConnection := ClientConnection.initial.acceptRequest false

/-- Demonstration trace, step 2: the admitted request obtains the write
slot. -/
def demo2 : ClientConnection := demo1.startWrite

/-- Demonstration trace, step 3: the request finishes writing and waits for
its response. -/
def demo3 : ClientConnection := demo2.finishWrite

/-- Demonstration trace, step 4: the response headers are parsed. -/
def demo4 : ClientConnection := demo3.readHeaders

/-- Demonstration trace, step 5: the response is consumed to EOF and the
exchange completes. -/
def demo5 : ClientConnection := demo4.finishResponse false

/-- The completed request retired in the final demonstration state. -/
def demoDone : ClientRequest :=
  { id := 0, closeDirective := false, requestDone := true, hasResponse := true,
    hasTrailer := true, responseDone := true, inFlight := false,
    cancelled := false, aborted := false }

/-- Marking a request cancelled does not change its submission index. -/
@[simp]
theorem markCancelled_id (rid : Nat) (q : ClientRequest) :
    (markCancelled rid q).id = q.id := by
  unfold markCancelled; split <;> rfl

/-- Marking a request cancelled does not change its inFlight flag. -/
@[simp]
theorem markCancelled_inFlight (rid : Nat) (q : ClientRequest) :
    (markCancelled rid q).inFlight = q.inFlight := by
  unfold markCancelled; split <;> rfl

/-- Marking a request cancelled does not change its trailer flag. -/
@[simp]
theorem markCancelled_hasTrailer (rid : Nat) (q : ClientRequest) :
    (markCancelled rid q).hasTrailer = q.hasTrailer := by
  unfold markCancelled; split <;> rfl

/-- Marking a request cancelled does not change its responseDone flag. -/
@[simp]
theorem markCancelled_responseDone (rid : Nat) (q : ClientRequest) :
    (markCancelled rid q).responseDone = q.responseDone := by
  unfold markCancelled; split <;> rfl

/-- Submission indices are unchanged by marking cancellations. -/
@[simp]
theorem reqIds_map_markCancelled (rid : Nat) (l : List ClientRequest) :
    reqIds (l.map (markCancelled rid)) = reqIds l := by
  unfold reqIds
  rw [List.map_map]
  exact List.map_congr_left (fun q _ => markCancelled_id rid q)

/-- reqIds distributes over append. -/
@[simp]
theorem reqIds_append (l₁ l₂ : List ClientRequest) :
    reqIds (l₁ ++ l₂) = reqIds l₁ ++ reqIds l₂ := by
  unfold reqIds; exact List.map_append _ _ _

/-- The invariant holds of a fresh connection. -/
theorem inv_init : ConnInv ClientConnection.initial := by
  constructor <;> simp [allIds, reqIds, ClientConnection.initial]

/-- Admission preserves the connection invariant. -/
theorem accept_inv {c : ClientConnection} (d : Bool) (h : ConnInv c) :
    ConnInv (c.acceptRequest d) := by
  obtain ⟨h1, h2, h3, h4, h5, h6, h7⟩ := h
  have hids : allIds (c.acceptRequest d) = allIds c ++ [c.nextId] := by
    simp [allIds, ClientConnection.acceptRequest, reqIds, newRequest, List.append_assoc]
  constructor
  · rw [hids]
    refine (List.pairwise_append).mpr ⟨h1, List.pairwise_singleton _ _, ?_⟩
    intro a ha b hb
    rw [List.mem_singleton] at hb
    subst hb
    exact h2 a ha
  · intro i hi
    rw [hids] at hi
    have hn : (c.acceptRequest d).nextId = c.nextId + 1 := rfl
    rw [hn]
    rcases List.mem_append.mp hi with hi | hi
    · exact Nat.lt_succ_of_lt (h2 i hi)
    · rw [List.mem_singleton] at hi
      omega
  · show List.Pairwise _ (c.pendingRequests ++ [newRequest c.nextId d])
    refine (List.pairwise_append).mpr ⟨h3, List.pairwise_singleton _ _, ?_⟩
    intro a _ b hb
    rw [List.mem_singleton] at hb
    subst hb
    exact Or.inr rfl
  · exact h4
  · exact h5
  · intro r hr
    rcases List.mem_append.mp hr with hr | hr
    · rcases List.mem_append.mp hr with hr | hr
      · exact h6 r (List.mem_append_left _ hr)
      · rw [List.mem_singleton] at hr
        subst hr
        exact ⟨rfl, rfl⟩
    · exact h6 r (List.mem_append_right _ hr)
  · exact h7

/-- Granting the write slot preserves the connection invariant. -/
theorem startWrite_inv {c : ClientConnection}
    (hidle : c.pendingRequests.all (fun r => !r.inFlight) = true) (h : ConnInv c) :
    ConnInv c.startWrite := by
  obtain ⟨h1, h2, h3, h4, h5, h6, h7⟩ := h
  cases hp : c.pendingRequests with
  | nil =>
    have he : c.startWrite = c := by
      simp [ClientConnection.startWrite, hp]
    rw [he]
    exact ⟨h1, h2, h3, h4, h5, h6, h7⟩
  | cons r rest =>
    have he : c.startWrite =
        { c with pendingRequests := { r with inFlight := true } :: rest } := by
      simp [ClientConnection.startWrite, hp]
    rw [he]
    have hrest : ∀ b ∈ rest, b.inFlight = false := by
      intro b hb
      have hx := List.all_eq_true.mp hidle b (by rw [hp]; exact List.mem_cons_of_mem _ hb)
      simpa using hx
    have hids : allIds { c with pendingRequests := { r with inFlight := true } :: rest }
        = allIds c := by
      simp [allIds, reqIds, hp]
    constructor
    · rw [hids]; exact h1
    · intro i hi
      rw [hids] at hi
      exact h2 i hi
    · show List.Pairwise _ ({ r with inFlight := true } :: rest)
      refine (List.pairwise_cons).mpr ⟨fun b hb => Or.inr (hrest b hb), ?_⟩
      have h3' := h3
      rw [hp] at h3'
      exact (List.pairwise_cons.mp h3').2
    · exact h4
    · exact h5
    · intro q hq
      rcases List.mem_append.mp hq with hq | hq
      · rcases List.mem_cons.mp hq with hq | hq
        · subst hq
          have := h6 r (by rw [hp]; exact List.mem_append_left _ (List.mem_cons_self _ _))
          exact this
        · exact h6 q (by rw [hp]; exact List.mem_append_left _ (List.mem_cons_of_mem _ hq))
      · exact h6 q (List.mem_append_right _ hq)
    · exact h7

/-- The write-to-wait handoff preserves the connection invariant. -/
theorem finishWrite_inv {c : ClientConnection} (h : ConnInv c) :
    ConnInv c.finishWrite := by
  obtain ⟨h1, h2, h3, h4, h5, h6, h7⟩ := h
  cases hp : c.pendingRequests with
  | nil =>
    have he : c.finishWrite = c := by
      simp [ClientConnection.finishWrite, hp]
    rw [he]
    exact ⟨h1, h2, h3, h4, h5, h6, h7⟩
  | cons r rest =>
    have he : c.finishWrite =
        { c with
            pendingRequests := rest,
            waitingResponses := c.waitingResponses ++
              [{ r with inFlight := false, requestDone := true }] } := by
      simp [ClientConnection.finishWrite, hp]
    rw [he]
    have hids : allIds
        { c with
            pendingRequests := rest,
            waitingResponses := c.waitingResponses ++
              [{ r with inFlight := false, requestDone := true }] } = allIds c := by
      simp [allIds, reqIds, hp, List.append_assoc]
    constructor
    · rw [hids]; exact h1
    · intro i hi
      rw [hids] at hi
      exact h2 i hi
    · show List.Pairwise _ rest
      have h3' := h3
      rw [hp] at h3'
      exact (List.pairwise_cons.mp h3').2
    · intro q hq
      rcases List.mem_append.mp hq with hq | hq
      · exact h4 q hq
      · rw [List.mem_singleton] at hq
        subst hq
        rfl
    · exact h5
    · intro q hq
      rcases List.mem_append.mp hq with hq | hq
      · exact h6 q (by rw [hp]; exact List.mem_append_left _ (List.mem_cons_of_mem _ hq))
      · rcases List.mem_append.mp hq with hq | hq
        · exact h6 q (List.mem_append_right _ hq)
        · rw [List.mem_singleton] at hq
          subst hq
          have := h6 r (by rw [hp]; exact List.mem_append_left _ (List.mem_cons_self _ _))
          exact this
    · exact h7

/-- Parsing response headers preserves the connection invariant. -/
theorem readHeaders_inv {c : ClientConnection} (h : ConnInv c) :
    ConnInv c.readHeaders := by
  obtain ⟨h1, h2, h3, h4, h5, h6, h7⟩ := h
  cases hw : c.waitingResponses with
  | nil =>
    have he : c.readHeaders = c := by
      simp [ClientConnection.readHeaders, hw]
    rw [he]
    exact ⟨h1, h2, h3, h4, h5, h6, h7⟩
  | cons r rest =>
    have he : c.readHeaders =
        { c with waitingResponses := { r with hasResponse := true } :: rest } := by
      simp [ClientConnection.readHeaders, hw]
    rw [he]
    have hids : allIds { c with waitingResponses := { r with hasResponse := true } :: rest }
        = allIds c := by
      simp [allIds, reqIds, hw]
    constructor
    · rw [hids]; exact h1
    · intro i hi
      rw [hids] at hi
      exact h2 i hi
    · exact h3
    · intro q hq
      rcases List.mem_cons.mp hq with hq | hq
      · subst hq
        have := h4 r (by rw [hw]; exact List.mem_cons_self _ _)
        exact this
      · exact h4 q (by rw [hw]; exact List.mem_cons_of_mem _ hq)
    · exact h5
    · intro q hq
      rcases List.mem_append.mp hq with hq | hq
      · exact h6 q (List.mem_append_left _ hq)
      · rcases List.mem_cons.mp hq with hq | hq
        · subst hq
          have := h6 r (by rw [hw]; exact List.mem_append_right _ (List.mem_cons_self _ _))
          exact this
        · exact h6 q (by rw [hw]; exact List.mem_append_right _ (List.mem_cons_of_mem _ hq))
    · exact h7

/-- Completing a response preserves the connection invariant. -/
theorem finishResponse_inv {c : ClientConnection} (respClose : Bool) (h : ConnInv c) :
    ConnInv (c.finishResponse respClose) := by
  obtain ⟨h1, h2, h3, h4, h5, h6, h7⟩ := h
  cases hw : c.waitingResponses with
  | nil =>
    have he : c.finishResponse respClose = c := by
      simp [ClientConnection.finishResponse, hw]
    rw [he]
    exact ⟨h1, h2, h3, h4, h5, h6, h7⟩
  | cons r rest =>
    have he : c.finishResponse respClose =
        { c with
            waitingResponses := rest,
            retired := c.retired ++ [{ r with hasTrailer := true, responseDone := true }],
            completedResponses := c.completedResponses ++ [r.id],
            allowNewRequests := c.allowNewRequests && !respClose } := by
      simp [ClientConnection.finishResponse, hw]
    rw [he]
    have hids : allIds
        { c with
            waitingResponses := rest,
            retired := c.retired ++ [{ r with hasTrailer := true, responseDone := true }],
            completedResponses := c.completedResponses ++ [r.id],
            allowNewRequests := c.allowNewRequests && !respClose } = allIds c := by
      simp [allIds, reqIds, hw, List.append_assoc]
    constructor
    · rw [hids]; exact h1
    · intro i hi
      rw [hids] at hi
      exact h2 i hi
    · exact h3
    · intro q hq
      exact h4 q (by rw [hw]; exact List.mem_cons_of_mem _ hq)
    · intro q hq
      rcases List.mem_append.mp hq with hq | hq
      · exact h5 q hq
      · rw [List.mem_singleton] at hq
        subst hq
        have := h4 r (by rw [hw]; exact List.mem_cons_self _ _)
        exact this
    · intro q hq
      rcases List.mem_append.mp hq with hq | hq
      · exact h6 q (List.mem_append_left _ hq)
      · exact h6 q (by rw [hw]; exact List.mem_append_right _ (List.mem_cons_of_mem _ hq))
    · intro q hq
      rcases List.mem_append.mp hq with hq | hq
      · exact h7 q hq
      · rw [List.mem_singleton] at hq
        subst hq
        rfl

/-- A write-side fault preserves the connection invariant. -/
theorem failRequestSide_inv {c : ClientConnection} (f : Fault) (h : ConnInv c) :
    ConnInv (c.failRequestSide f).1 := by
  obtain ⟨h1, h2, h3, h4, h5, h6, h7⟩ := h
  have hsub : List.Sublist (c.completedResponses ++ reqIds c.waitingResponses) (allIds c) := by
    unfold allIds
    exact List.sublist_append_left _ _
  have hx : allIds (c.failRequestSide f).1
      = c.completedResponses ++ reqIds c.waitingResponses := by
    simp [allIds, ClientConnection.failRequestSide, reqIds]
  constructor
  · rw [hx]
    exact h1.sublist hsub
  · intro i hi
    rw [hx] at hi
    exact h2 i (hsub.subset hi)
  · exact List.Pairwise.nil
  · exact h4
  · intro r hr
    rcases List.mem_append.mp hr with hr | hr
    · exact h5 r hr
    · obtain ⟨q, hq, rfl⟩ := List.mem_map.mp hr
      rfl
  · intro r hr
    rcases List.mem_append.mp hr with hr | hr
    · cases hr
    · exact h6 r (List.mem_append_right _ hr)
  · intro r hr
    rcases List.mem_append.mp hr with hr | hr
    · exact h7 r hr
    · obtain ⟨q, hq, rfl⟩ := List.mem_map.mp hr
      have := h6 q (List.mem_append_left _ hq)
      show q.hasTrailer = q.responseDone
      rw [this.1, this.2]

/-- A read-side fault preserves the connection invariant. -/
theorem failResponseSide_inv {c : ClientConnection} (f : Fault) (h : ConnInv c) :
    ConnInv (c.failResponseSide f).1 := by
  obtain ⟨h1, h2, h3, h4, h5, h6, h7⟩ := h
  have hsub : List.Sublist (c.completedResponses ++ reqIds c.pendingRequests) (allIds c) := by
    unfold allIds
    rw [List.append_assoc]
    exact (List.sublist_append_right (reqIds c.waitingResponses)
      (reqIds c.pendingRequests)).append_left c.completedResponses
  have hx : allIds (c.failResponseSide f).1
      = c.completedResponses ++ reqIds c.pendingRequests := by
    simp [allIds, ClientConnection.failResponseSide, reqIds]
  constructor
  · rw [hx]
    exact h1.sublist hsub
  · intro i hi
    rw [hx] at hi
    exact h2 i (hsub.subset hi)
  · exact h3
  · intro r hr
    cases hr
  · intro r hr
    rcases List.mem_append.mp hr with hr | hr
    · exact h5 r hr
    · obtain ⟨q, hq, rfl⟩ := List.mem_map.mp hr
      rfl
  · intro r hr
    rcases List.mem_append.mp hr with hr | hr
    · exact h6 r (List.mem_append_left _ hr)
    · cases hr
  · intro r hr
    rcases List.mem_append.mp hr with hr | hr
    · exact h7 r hr
    · obtain ⟨q, hq, rfl⟩ := List.mem_map.mp hr
      have := h6 q (List.mem_append_right _ hq)
      show q.hasTrailer = q.responseDone
      rw [this.1, this.2]

/-- Aborting the whole connection preserves the connection invariant. -/
theorem abortAll_inv {c : ClientConnection} (h : ConnInv c) : ConnInv c.abortAll := by
  obtain ⟨h1, h2, h3, h4, h5, h6, h7⟩ := h
  have hsub : List.Sublist c.completedResponses (allIds c) := by
    unfold allIds
    rw [List.append_assoc]
    exact List.sublist_append_left _ _
  have hx : allIds c.abortAll = c.completedResponses := by
    simp [allIds, ClientConnection.abortAll, reqIds]
  constructor
  · rw [hx]
    exact h1.sublist hsub
  · intro i hi
    rw [hx] at hi
    exact h2 i (hsub.subset hi)
  · exact List.Pairwise.nil
  · intro r hr
    cases hr
  · intro r hr
    rcases List.mem_append.mp hr with hr | hr
    · exact h5 r hr
    · obtain ⟨q, hq, rfl⟩ := List.mem_map.mp hr
      rfl
  · intro r hr
    rcases List.mem_append.mp hr with hr | hr
    · cases hr
    · cases hr
  · intro r hr
    rcases List.mem_append.mp hr with hr | hr
    · exact h7 r hr
    · obtain ⟨q, hq, rfl⟩ := List.mem_map.mp hr
      have := h6 q hq
      show q.hasTrailer = q.responseDone
      rw [this.1, this.2]

/-- Cancellation preserves the connection invariant. -/
theorem cancel_inv {c : ClientConnection} (rid : Nat) (ab : Bool) (h : ConnInv c) :
    ConnInv (c.cancel rid ab) := by
  obtain ⟨h1, h2, h3, h4, h5, h6, h7⟩ := h
  cases hf : findReq c rid with
  | none =>
    have he : c.cancel rid ab = c := by
      unfold ClientConnection.cancel
      simp only [hf]
    rw [he]
    exact ⟨h1, h2, h3, h4, h5, h6, h7⟩
  | some r =>
    by_cases hdone : (r.requestDone && r.responseDone) = true
    · have he : c.cancel rid ab = c := by
        unfold ClientConnection.cancel
        simp only [hf, hdone, if_true]
      rw [he]
      exact ⟨h1, h2, h3, h4, h5, h6, h7⟩
    · cases ab with
      | true =>
        have he : c.cancel rid true = c.abortAll := by
          unfold ClientConnection.cancel
          simp only [hf, hdone, if_false, if_true]
          rfl
        rw [he]
        exact abortAll_inv ⟨h1, h2, h3, h4, h5, h6, h7⟩
      | false =>
        cases hp : c.pendingRequests.find? (fun q => decide (q.id = rid)) with
        | some p =>
          by_cases hif : p.inFlight = true
          · have he : c.cancel rid false =
                { c with pendingRequests := c.pendingRequests.map (markCancelled rid) } := by
              unfold ClientConnection.cancel
              simp only [hf, hdone, if_false, hp, hif, if_true]
              rfl
            rw [he]
            have hids : reqIds (c.pendingRequests.map (markCancelled rid))
                = reqIds c.pendingRequests := reqIds_map_markCancelled rid _
            have hx : allIds
                { c with pendingRequests := c.pendingRequests.map (markCancelled rid) }
                = allIds c := by
              simp [allIds]
            constructor
            · rw [hx]; exact h1
            · intro i hi
              rw [hx] at hi
              exact h2 i hi
            · show List.Pairwise _ (c.pendingRequests.map (markCancelled rid))
              rw [List.pairwise_map]
              refine h3.imp ?_
              intro a b hab
              simpa using hab
            · exact h4
            · exact h5
            · intro q hq
              rcases List.mem_append.mp hq with hq | hq
              · obtain ⟨q0, hq0, rfl⟩ := List.mem_map.mp hq
                have := h6 q0 (List.mem_append_left _ hq0)
                simpa using this
              · exact h6 q (List.mem_append_right _ hq)
            · exact h7
          · have he : c.cancel rid false =
                { c with
                    pendingRequests :=
                      c.pendingRequests.filter (fun q => decide (q.id ≠ rid)),
                    retired := c.retired ++ [{ p with cancelled := true }] } := by
              unfold ClientConnection.cancel
              simp only [hf, hdone, if_false, hp, hif]
              rfl
            rw [he]
            have hfil : List.Sublist
                (c.pendingRequests.filter (fun q => decide (q.id ≠ rid)))
                c.pendingRequests := List.filter_sublist _
            have hsub : List.Sublist
                (allIds { c with
                    pendingRequests :=
                      c.pendingRequests.filter (fun q => decide (q.id ≠ rid)),
                    retired := c.retired ++ [{ p with cancelled := true }] })
                (allIds c) := by
              simp only [allIds, reqIds]
              exact (hfil.map (fun q => q.id)).append_left
                (c.completedResponses ++ c.waitingResponses.map (fun q => q.id))
            have hpmem : p ∈ c.pendingRequests := List.mem_of_find?_eq_some hp
            constructor
            · exact h1.sublist hsub
            · intro i hi
              exact h2 i (hsub.subset hi)
            · show List.Pairwise _ (c.pendingRequests.filter _)
              exact h3.sublist hfil
            · exact h4
            · intro q hq
              rcases List.mem_append.mp hq with hq | hq
              · exact h5 q hq
              · rw [List.mem_singleton] at hq
                subst hq
                show p.inFlight = false
                revert hif
                cases p.inFlight <;> simp
            · intro q hq
              rcases List.mem_append.mp hq with hq | hq
              · exact h6 q (List.mem_append_left _ (hfil.subset hq))
              · exact h6 q (List.mem_append_right _ hq)
            · intro q hq
              rcases List.mem_append.mp hq with hq | hq
              · exact h7 q hq
              · rw [List.mem_singleton] at hq
                subst hq
                have := h6 p (List.mem_append_left _ hpmem)
                show p.hasTrailer = p.responseDone
                rw [this.1, this.2]
        | none =>
          have he : c.cancel rid false =
              { c with waitingResponses := c.waitingResponses.map (markCancelled rid) } := by
            unfold ClientConnection.cancel
            simp only [hf, hdone, if_false, hp]
            rfl
          rw [he]
          have hids : reqIds (c.waitingResponses.map (markCancelled rid))
              = reqIds c.waitingResponses := reqIds_map_markCancelled rid _
          have hx : allIds
              { c with waitingResponses := c.waitingResponses.map (markCancelled rid) }
              = allIds c := by
            simp [allIds]
          constructor
          · rw [hx]; exact h1
          · intro i hi
            rw [hx] at hi
            exact h2 i hi
          · exact h3
          · intro q hq
            obtain ⟨q0, hq0, rfl⟩ := List.mem_map.mp hq
            have := h4 q0 hq0
            simpa using this
          · exact h5
          · intro q hq
            rcases List.mem_append.mp hq with hq | hq
            · exact h6 q (List.mem_append_left _ hq)
            · obtain ⟨q0, hq0, rfl⟩ := List.mem_map.mp hq
              have := h6 q0 (List.mem_append_right _ hq0)
              simpa using this
          · exact h7

/-- Every dispatch transition preserves the connection invariant. -/
theorem inv_step {c c' : ClientConnection} (h : ConnInv c) (hs : Step c c') : ConnInv c' := by
  cases hs with
  | accept d hd => exact accept_inv d h
  | startWrite hq hidle => exact startWrite_inv hidle h
  | finishWrite hh => exact finishWrite_inv h
  | readHeaders hq => exact readHeaders_inv h
  | finishResponse respClose hh => exact finishResponse_inv respClose h
  | failRequest f hq => exact failRequestSide_inv f h
  | failResponse f hq => exact failResponseSide_inv f h
  | cancelReq rid ab => exact cancel_inv rid ab h

/-- The connection invariant holds in every reachable state. -/
theorem reachable_inv {c : ClientConnection} (h : Reachable c) : ConnInv c := by
  induction h with
  | init => exact inv_init
  | step hr hs ih => exact inv_step ih hs

/-- The completed-response history is a sublist of the combined index list. -/
theorem completed_sublist_allIds (c : ClientConnection) :
    List.Sublist c.completedResponses (allIds c) := by
  unfold allIds
  rw [List.append_assoc]
  exact List.sublist_append_left _ _

/-- The waiting-response indices form a sublist of the combined index list. -/
theorem waitingIds_sublist_allIds (c : ClientConnection) :
    List.Sublist (reqIds c.waitingResponses) (allIds c) := by
  unfold allIds
  exact (List.sublist_append_right _ _).trans (List.sublist_append_left _ _)

/-- The pending-request indices form a sublist of the combined index list. -/
theorem pendingIds_sublist_allIds (c : ClientConnection) :
    List.Sublist (reqIds c.pendingRequests) (allIds c) := by
  unfold allIds
  exact List.sublist_append_right _ _

/-- A list on which no two members are simultaneously writing holds at most
one writing member. -/
theorem countP_inFlight_le_one (l : List ClientRequest)
    (h : List.Pairwise (fun a b => a.inFlight = false ∨ b.inFlight = false) l) :
    l.countP (fun r => r.inFlight) ≤ 1 := by
  induction l with
  | nil => simp
  | cons a t ih =>
    obtain ⟨ha, ht⟩ := List.pairwise_cons.mp h
    rw [List.countP_cons]
    cases hf : a.inFlight with
    | false => simpa [hf] using ih ht
    | true =>
      have hz : t.countP (fun r => r.inFlight) = 0 := by
        rw [List.countP_eq_zero]
        intro b hb
        rcases ha b hb with h1 | h1
        · rw [hf] at h1
          simp at h1
        · simp [h1]
      simp [hf, hz]

/-- C1: on a ClientConnection, the responses of requests that reached the
write slot complete in submission order (the history of completed responses
is strictly increasing in submission index), the iteration order of
waitingResponses is the submission order, and the head-of-line reader is
always the earliest-submitted member of waitingResponses. -/
theorem c1_response_order {c : ClientConnection} (h : Reachable c) :
    List.Sorted (· < ·) c.completedResponses ∧
    List.Sorted (· < ·) (reqIds c.waitingResponses) ∧
    ∀ hd, c.waitingResponses.head? = some hd →
      ∀ r ∈ c.waitingResponses, hd.id ≤ r.id := by
  have hi := reachable_inv h
  have hsc : List.Sorted (· < ·) c.completedResponses :=
    hi.sortedAll.sublist (completed_sublist_allIds c)
  have hsw : List.Sorted (· < ·) (reqIds c.waitingResponses) :=
    hi.sortedAll.sublist (waitingIds_sublist_allIds c)
  refine ⟨hsc, hsw, ?_⟩
  intro hd hhd r hr
  cases hw : c.waitingResponses with
  | nil =>
    rw [hw] at hr
    cases hr
  | cons a t =>
    rw [hw, List.head?_cons] at hhd
    injection hhd with hhd
    rw [hw] at hr
    have hsw' : List.Sorted (· < ·) (a.id :: reqIds t) := by
      rw [hw] at hsw
      simpa [reqIds] using hsw
    rw [← hhd]
    rcases List.mem_cons.mp hr with rfl | hr
    · exact Nat.le_refl _
    · have hmem : r.id ∈ reqIds t := List.mem_map.mpr ⟨r, hr, rfl⟩
      exact Nat.le_of_lt (List.rel_of_sorted_cons hsw' r.id hmem)

/-- C2: in every reachable state of a ClientConnection, at most one of its
tracked ClientRequests has inFlight set. -/
theorem c2_single_inflight {c : ClientConnection} (h : Reachable c) :
    (c.pendingRequests ++ c.waitingResponses ++ c.retired).countP
      (fun r => r.inFlight) ≤ 1 := by
  have hi := reachable_inv h
  rw [List.countP_append, List.countP_append]
  have hw : c.waitingResponses.countP (fun r => r.inFlight) = 0 := by
    rw [List.countP_eq_zero]
    intro a ha
    simp [hi.waitIdle a ha]
  have hr : c.retired.countP (fun r => r.inFlight) = 0 := by
    rw [List.countP_eq_zero]
    intro a ha
    simp [hi.retiredIdle a ha]
  rw [hw, hr]
  simpa using countP_inFlight_le_one _ hi.onceInFlight

/-- The first demonstration state is reachable. -/
theorem demo1_reachable : Reachable demo1 :=
  Reachable.step Reachable.init (Step.accept false rfl)

/-- The second demonstration state is reachable. -/
theorem demo2_reachable : Reachable demo2 :=
  Reachable.step demo1_reachable (Step.startWrite rfl rfl)

/-- The third demonstration state is reachable. -/
theorem demo3_reachable : Reachable demo3 :=
  Reachable.step demo2_reachable (Step.finishWrite rfl)

/-- The fourth demonstration state is reachable. -/
theorem demo4_reachable : Reachable demo4 :=
  Reachable.step demo3_reachable (Step.readHeaders rfl)

/-- The fifth demonstration state is reachable. -/
theorem demo5_reachable : Reachable demo5 :=
  Reachable.step demo4_reachable (Step.finishResponse false rfl)

/-- Witness for C1 on a concrete reachable state. -/
theorem c1_witness :
    List.Sorted (· < ·) demo5.completedResponses ∧
    List.Sorted (· < ·) (reqIds demo5.waitingResponses) ∧
    ∀ hd, demo5.waitingResponses.head? = some hd →
      ∀ r ∈ demo5.waitingResponses, hd.id ≤ r.id :=
  c1_response_order demo5_reachable

/-- Witness for C2 on a concrete reachable state with one writing request. -/
theorem c2_witness :
    (demo2.pendingRequests ++ demo2.waitingResponses ++ demo2.retired).countP
      (fun r => r.inFlight) ≤ 1 :=
  c2_single_inflight demo2_reachable

/-- Pairing indices with a fixed fault is injective. -/
theorem pairFault_injective (f : Fault) : Function.Injective (fun i : Nat => (i, f)) := by
  intro a b hab
  exact congrArg Prod.fst hab

/-- In a duplicate-free list, a member is counted exactly once. -/
theorem countP_eq_one_of_nodup_mem {α : Type} [DecidableEq α] {l : List α} {a : α}
    (hn : l.Nodup) (hm : a ∈ l) :
    l.countP (fun x => decide (x = a)) = 1 := by
  induction l with
  | nil => cases hm
  | cons b t ih =>
    have hbt : b ∉ t := (List.nodup_cons.mp hn).1
    have hnt : t.Nodup := (List.nodup_cons.mp hn).2
    rw [List.countP_cons]
    rcases List.mem_cons.mp hm with rfl | hmt
    · have hz : t.countP (fun x => decide (x = a)) = 0 := by
        rw [List.countP_eq_zero]
        intro x hx
        simp only [decide_eq_true_eq]
        intro hxa
        exact hbt (hxa ▸ hx)
      simp [hz]
    · have hne : decide (b = a) = false := by
        simp only [decide_eq_false_iff_not]
        intro hba
        exact hbt (hba ▸ hmt)
      rw [ih hnt hmt]
      simp [hne]

/-- C3: once the write-side fault is set, every pending and currently-writing
request fails with it, exactly once each (the delivery list pairs every
pending request with the fault exactly once and pendingRequests is emptied),
and every later write-side operation surfaces the sticky fault; symmetrically
on the read side, every waiting response is failed exactly once and every
subsequent response-reader without cached headers fails with the sticky
fault.  No fault is swallowed: each affected request appears in the delivery
list. -/
theorem c3_sticky_faults {c : ClientConnection} (f g : Fault) (h : Reachable c) :
    (c.failRequestSide f).1.requestFault = some f ∧
    (∀ r ∈ c.pendingRequests,
      (c.failRequestSide f).2.countP (fun x => decide (x = (r.id, f))) = 1) ∧
    (c.failRequestSide f).1.pendingRequests = [] ∧
    (∀ r, tryWrite (c.failRequestSide f).1 r = some (Except.error f)) ∧
    (c.failResponseSide g).1.responseFault = some g ∧
    (∀ r ∈ c.waitingResponses,
      (c.failResponseSide g).2.countP (fun x => decide (x = (r.id, g))) = 1) ∧
    (c.failResponseSide g).1.waitingResponses = [] ∧
    (∀ r, r.hasResponse = false →
      tryResponse (c.failResponseSide g).1 r = some (Except.error g)) := by
  have hi := reachable_inv h
  have hnodupP : (reqIds c.pendingRequests).Nodup :=
    (hi.sortedAll.sublist (pendingIds_sublist_allIds c)).nodup
  have hnodupW : (reqIds c.waitingResponses).Nodup :=
    (hi.sortedAll.sublist (waitingIds_sublist_allIds c)).nodup
  refine ⟨rfl, ?_, rfl, ?_, rfl, ?_, rfl, ?_⟩
  · intro r hr
    have hmem : (r.id, f) ∈ (reqIds c.pendingRequests).map (fun i => (i, f)) :=
      List.mem_map_of_mem _ (List.mem_map.mpr ⟨r, hr, rfl⟩)
    exact countP_eq_one_of_nodup_mem (hnodupP.map (pairFault_injective f)) hmem
  · intro r
    rfl
  · intro r hr
    have hmem : (r.id, g) ∈ (reqIds c.waitingResponses).map (fun i => (i, g)) :=
      List.mem_map_of_mem _ (List.mem_map.mpr ⟨r, hr, rfl⟩)
    exact countP_eq_one_of_nodup_mem (hnodupW.map (pairFault_injective g)) hmem
  · intro r hrr
    simp [tryResponse, hrr, ClientConnection.failResponseSide]

/-- Witness for C3 on a concrete reachable state with a pending request and a
waiting response. -/
theorem c3_witness :
    (demo1.failRequestSide Fault.transportErr).1.requestFault
        = some Fault.transportErr ∧
    (∀ r ∈ demo1.pendingRequests,
      (demo1.failRequestSide Fault.transportErr).2.countP
        (fun x => decide (x = (r.id, Fault.transportErr))) = 1) ∧
    (demo1.failRequestSide Fault.transportErr).1.pendingRequests = [] ∧
    (∀ r, tryWrite (demo1.failRequestSide Fault.transportErr).1 r
        = some (Except.error Fault.transportErr)) ∧
    (demo1.failResponseSide Fault.framing).1.responseFault = some Fault.framing ∧
    (∀ r ∈ demo1.waitingResponses,
      (demo1.failResponseSide Fault.framing).2.countP
        (fun x => decide (x = (r.id, Fault.framing))) = 1) ∧
    (demo1.failResponseSide Fault.framing).1.waitingResponses = [] ∧
    (∀ r, r.hasResponse = false →
      tryResponse (demo1.failResponseSide Fault.framing).1 r
        = some (Except.error Fault.framing)) :=
  c3_sticky_faults Fault.transportErr Fault.framing demo1_reachable

/-- C4: request fails with ConnectionClosed exactly when allowNewRequests is
false; on success it appends the new request to pendingRequests and returns
the handle immediately; in both cases the operation performs no transport I/O
and never parks the calling task (its event trace is empty). -/
theorem c4_request_admission (c : ClientConnection) (d : Bool) :
    (c.allowNewRequests = false →
      c.request d = (Except.error Fault.connectionClosed, [])) ∧
    (c.allowNewRequests = true →
      c.request d = (Except.ok (c.acceptRequest d, c.nextId), []) ∧
      (c.acceptRequest d).pendingRequests
        = c.pendingRequests ++ [newRequest c.nextId d]) ∧
    (c.request d).2 = [] := by
  refine ⟨?_, ?_, ?_⟩
  · intro ha
    simp [ClientConnection.request, ha]
  · intro ha
    exact ⟨by simp [ClientConnection.request, ha], rfl⟩
  · by_cases ha : c.allowNewRequests = true
    · simp [ClientConnection.request, ha]
    · simp only [Bool.not_eq_true] at ha
      simp [ClientConnection.request, ha]

/-- Witness for C4 on a fresh connection. -/
theorem c4_witness :
    (ClientConnection.initial.allowNewRequests = false →
      ClientConnection.initial.request false
        = (Except.error Fault.connectionClosed, [])) ∧
    (ClientConnection.initial.allowNewRequests = true →
      ClientConnection.initial.request false
        = (Except.ok (ClientConnection.initial.acceptRequest false,
            ClientConnection.initial.nextId), []) ∧
      (ClientConnection.initial.acceptRequest false).pendingRequests
        = ClientConnection.initial.pendingRequests
          ++ [newRequest ClientConnection.initial.nextId false]) ∧
    (ClientConnection.initial.request false).2 = [] :=
  c4_request_admission ClientConnection.initial false

/-- C5: admitting a request whose headers carry a close directive clears
allowNewRequests immediately, so every subsequent request on that connection
fails with ConnectionClosed. -/
theorem c5_close_disables (c : ClientConnection) (h : c.allowNewRequests = true) :
    c.request true = (Except.ok (c.acceptRequest true, c.nextId), []) ∧
    (c.acceptRequest true).allowNewRequests = false ∧
    ∀ d, (c.acceptRequest true).request d
      = (Except.error Fault.connectionClosed, []) := by
  have hfalse : (c.acceptRequest true).allowNewRequests = false := by
    simp [ClientConnection.acceptRequest]
  refine ⟨by simp [ClientConnection.request, h], hfalse, ?_⟩
  intro d
  simp [ClientConnection.request, hfalse]

/-- Witness for C5 on a fresh connection. -/
theorem c5_witness :
    ClientConnection.initial.request true
      = (Except.ok (ClientConnection.initial.acceptRequest true,
          ClientConnection.initial.nextId), []) ∧
    (ClientConnection.initial.acceptRequest true).allowNewRequests = false ∧
    ∀ d, (ClientConnection.initial.acceptRequest true).request d
      = (Except.error Fault.connectionClosed, []) :=
  c5_close_disables ClientConnection.initial rfl

/-- C6: cancelling a request whose exchange has completed, gracefully or with
abort, leaves the connection (and hence every request it tracks) entirely
unchanged, and raises no error. -/
theorem c6_cancel_completed (c : ClientConnection) (rid : Nat) (ab : Bool)
    (r : ClientRequest) (hf : findReq c rid = some r)
    (h1 : r.requestDone = true) (h2 : r.responseDone = true) :
    c.cancel rid ab = c := by
  unfold ClientConnection.cancel
  simp [hf, h1, h2]

/-- Witness for C6: aborting the completed request of the final demonstration
state changes nothing. -/
theorem c6_witness : demo5.cancel 0 true = demo5 :=
  c6_cancel_completed demo5 0 true demoDone (by decide) rfl rfl

/-- C7: responseTrailer succeeds exactly on requests whose response stream
has been consumed to EOF; before that it fails with ProtocolMisuse. -/
theorem c7_trailer_gate {c : ClientConnection} {r : ClientRequest} (h : Reachable c)
    (hmem : r ∈ c.pendingRequests ∨ r ∈ c.waitingResponses ∨ r ∈ c.retired) :
    (r.responseDone = false →
      r.responseTrailer = Except.error Fault.protocolMisuse) ∧
    (r.responseDone = true → r.responseTrailer = Except.ok ()) := by
  have hi := reachable_inv h
  have htr : r.hasTrailer = r.responseDone := by
    rcases hmem with hm | hm | hm
    · have := hi.activeFlags r (List.mem_append_left _ hm)
      rw [this.1, this.2]
    · have := hi.activeFlags r (List.mem_append_right _ hm)
      rw [this.1, this.2]
    · exact hi.retiredTrailer r hm
  constructor
  · intro hd
    simp [ClientRequest.responseTrailer, htr, hd]
  · intro hd
    simp [ClientRequest.responseTrailer, htr, hd]

/-- Witness for C7 on the completed request of the final demonstration
state. -/
theorem c7_witness :
    (demoDone.responseDone = false →
      demoDone.responseTrailer = Except.error Fault.protocolMisuse) ∧
    (demoDone.responseDone = true → demoDone.responseTrailer = Except.ok ()) :=
  c7_trailer_gate demo5_reachable (Or.inr (Or.inr (by decide)))

/-- Over the seven message levels, the modelled enabled check agrees with the
at-least-as-severe comparison drawn from the severity order of the spec. -/
theorem enabled_iff_rank :
    ∀ conf ∈ severityList, ∀ l ∈ severityList,
      (enabledAt conf l = true ↔ specNoLessSevere l conf = true) := by decide

/-- A logger configured at NONE is enabled at none of the seven message
levels. -/
theorem none_disables : ∀ l ∈ severityList, enabledAt Level.NONE l = false := by decide

/-- Counterexample to C8 as stated: TRACE is no more severe than INFO, yet a
logger configured at INFO is not enabled at TRACE. -/
theorem c8_counterexample :
    ¬ (enabledAt Level.INFO Level.TRACE = true ↔
       specNoMoreSevere Level.TRACE Level.INFO = true) := by decide

/-- C8 (amended): a logger is enabled at message level l iff l is at least as
severe as (no less severe than) its configured level; a logger configured at
NONE is enabled at no message level; and through the MORDOR_LOG_LEVEL macro a
message at a disabled level is neither formatted nor emitted to any sink. -/
theorem c8_enabled_severity (conf l : Level) (reg : LogRegistry) (p : List Nat)
    (d : LoggerData) (hconf : conf ∈ severityList) (hl : l ∈ severityList)
    (hf : findLogger reg p = some d) (he : enabledAt d.level l = false) :
    (enabledAt conf l = true ↔ specNoLessSevere l conf = true) ∧
    enabledAt Level.NONE l = false ∧
    mordorLogLevel reg p l = [] := by
  refine ⟨enabled_iff_rank conf hconf l hl, none_disables l hl, ?_⟩
  simp [mordorLogLevel, hf, he]

/-- Witness for C8 at INFO configuration and a TRACE message on the initial
root logger of the initial registry. -/
theorem c8_witness :
    (enabledAt Level.INFO Level.TRACE = true ↔
      specNoLessSevere Level.TRACE Level.INFO = true) ∧
    enabledAt Level.NONE Level.TRACE = false ∧
    mordorLogLevel initialRegistry [] Level.TRACE = [] :=
  c8_enabled_severity Level.INFO Level.TRACE initialRegistry [] defaultLoggerData
    (by decide) (by decide) (by decide) (by decide)

/-- Membership in the delivery walk: a sink receives the message iff it
belongs to some logger on the chain all of whose nearer predecessors inherit
sinks. -/
theorem mem_deliverChain_iff (ds : List LoggerData) (s : Nat) :
    s ∈ deliverChain ds ↔
      ∃ i, i < ds.length ∧ s ∈ (ds.getD i defaultLoggerData).sinks ∧
        ∀ j, j < i → (ds.getD j defaultLoggerData).inheritSinks = true := by
  induction ds with
  | nil => simp [deliverChain]
  | cons d t ih =>
    cases hd : d.inheritSinks with
    | true =>
      simp only [deliverChain, hd, if_true, List.mem_append, ih]
      constructor
      · rintro (hs | ⟨i, hi, hmem, hall⟩)
        · refine ⟨0, Nat.succ_pos _, ?_, ?_⟩
          · simpa [List.getD_cons_zero] using hs
          · intro j hj
            exact absurd hj (Nat.not_lt_zero j)
        · refine ⟨i + 1, Nat.succ_lt_succ hi, ?_, ?_⟩
          · simpa [List.getD_cons_succ] using hmem
          · intro j hj
            cases j with
            | zero => simpa [List.getD_cons_zero] using hd
            | succ k =>
              have := hall k (Nat.lt_of_succ_lt_succ hj)
              simpa [List.getD_cons_succ] using this
      · rintro ⟨i, hi, hmem, hall⟩
        cases i with
        | zero => exact Or.inl (by simpa [List.getD_cons_zero] using hmem)
        | succ k =>
          refine Or.inr ⟨k, Nat.lt_of_succ_lt_succ hi, ?_, ?_⟩
          · simpa [List.getD_cons_succ] using hmem
          · intro j hj
            have := hall (j + 1) (Nat.succ_lt_succ hj)
            simpa [List.getD_cons_succ] using this
    | false =>
      simp only [deliverChain, hd, if_false, List.append_nil]
      constructor
      · intro hs
        refine ⟨0, Nat.succ_pos _, ?_, ?_⟩
        · simpa [List.getD_cons_zero] using hs
        · intro j hj
          exact absurd hj (Nat.not_lt_zero j)
      · rintro ⟨i, hi, hmem, hall⟩
        cases i with
        | zero => simpa [List.getD_cons_zero] using hmem
        | succ k =>
          have h0 := hall 0 (Nat.succ_pos _)
          rw [List.getD_cons_zero, hd] at h0
          simp at h0

/-- Registering a logger never removes another logger. -/
theorem findLogger_ensure_isSome {reg : LogRegistry} {q : List Nat} (p : List Nat)
    (h : (findLogger reg q).isSome = true) :
    (findLogger (ensureLogger reg p) q).isSome = true := by
  cases hf : findLogger reg p with
  | some d =>
    have he : ensureLogger reg p = reg := by
      unfold ensureLogger
      rw [hf]
    rw [he]
    exact h
  | none =>
    have he : ensureLogger reg p = ⟨(p, defaultLoggerData) :: reg.loggers⟩ := by
      unfold ensureLogger
      rw [hf]
    rw [he]
    show (assocFind ((p, defaultLoggerData) :: reg.loggers) q).isSome = true
    by_cases hpq : p = q
    · simp [assocFind, hpq]
    · simp only [assocFind, if_neg hpq]
      exact h

/-- A registered logger survives any sequence of registrations. -/
theorem foldl_ensure_mono {q : List Nat} (ps : List (List Nat)) (reg : LogRegistry)
    (h : (findLogger reg q).isSome = true) :
    (findLogger (ps.foldl ensureLogger reg) q).isSome = true := by
  induction ps generalizing reg with
  | nil => simpa using h
  | cons a t ih => exact ih _ (findLogger_ensure_isSome a h)

/-- Registering a logger makes it present. -/
theorem ensure_self_isSome (reg : LogRegistry) (p : List Nat) :
    (findLogger (ensureLogger reg p) p).isSome = true := by
  cases hf : findLogger reg p with
  | some d =>
    have he : ensureLogger reg p = reg := by
      unfold ensureLogger
      rw [hf]
    rw [he, hf]
    rfl
  | none =>
    have he : ensureLogger reg p = ⟨(p, defaultLoggerData) :: reg.loggers⟩ := by
      unfold ensureLogger
      rw [hf]
    rw [he]
    show (assocFind ((p, defaultLoggerData) :: reg.loggers) p).isSome = true
    simp [assocFind]

/-- Every path registered during a fold is present afterwards. -/
theorem mem_foldl_ensure_isSome {q : List Nat} (ps : List (List Nat)) (reg : LogRegistry)
    (h : q ∈ ps) :
    (findLogger (ps.foldl ensureLogger reg) q).isSome = true := by
  induction ps generalizing reg with
  | nil => cases h
  | cons a t ih =>
    rcases List.mem_cons.mp h with rfl | hq
    · exact foldl_ensure_mono t _ (ensure_self_isSome reg q)
    · exact ih _ hq

/-- The root path is on every ancestor chain. -/
theorem root_mem_ancestorPaths (p : List Nat) : [] ∈ ancestorPaths p := by
  unfold ancestorPaths
  rw [List.mem_reverse]
  exact List.mem_map.mpr ⟨0, by simp, by simp⟩

/-- C9: a message logged at path p is delivered exactly to the sinks of the
loggers on the ancestor chain of p up to and including the first whose
inherit-sinks flag is false (index 0 of chainData being the logger itself and
larger indices its ancestors toward the root), and the root logger exists
after any lookup. -/
theorem c9_sink_delivery (reg : LogRegistry) (p q : List Nat) (s : Nat) :
    (s ∈ emitLog reg p ↔
      ∃ i, i < (chainData reg p).length ∧
        s ∈ ((chainData reg p).getD i defaultLoggerData).sinks ∧
        ∀ j, j < i →
          ((chainData reg p).getD j defaultLoggerData).inheritSinks = true) ∧
    (findLogger (lookupLogger reg q) []).isSome = true :=
  ⟨mem_deliverChain_iff (chainData reg p) s,
   mem_foldl_ensure_isSome (ancestorPaths q) reg (root_mem_ancestorPaths q)⟩

/-- Witness for C9 on a small concrete registry. -/
theorem c9_witness :
    (5 ∈ emitLog (lookupLogger initialRegistry [1, 2]) [1, 2] ↔
      ∃ i, i < (chainData (lookupLogger initialRegistry [1, 2]) [1, 2]).length ∧
        5 ∈ ((chainData (lookupLogger initialRegistry [1, 2]) [1, 2]).getD i
          defaultLoggerData).sinks ∧
        ∀ j, j < i →
          ((chainData (lookupLogger initialRegistry [1, 2]) [1, 2]).getD j
            defaultLoggerData).inheritSinks = true) ∧
    (findLogger (lookupLogger (lookupLogger initialRegistry [1, 2]) [3]) []).isSome
      = true :=
  c9_sink_delivery (lookupLogger initialRegistry [1, 2]) [1, 2] [3] 5

/-- A logger found after one registration was either already registered or
carries the default state. -/
theorem ensure_new_default {reg : LogRegistry} {p q : List Nat} {d : LoggerData}
    (h : findLogger (ensureLogger reg q) p = some d) :
    findLogger reg p = some d ∨ d = defaultLoggerData := by
  cases hf : findLogger reg q with
  | some d0 =>
    have he : ensureLogger reg q = reg := by
      unfold ensureLogger
      rw [hf]
    rw [he] at h
    exact Or.inl h
  | none =>
    have he : ensureLogger reg q = ⟨(q, defaultLoggerData) :: reg.loggers⟩ := by
      unfold ensureLogger
      rw [hf]
    rw [he] at h
    have h' : assocFind ((q, defaultLoggerData) :: reg.loggers) p = some d := h
    by_cases hpq : q = p
    · rw [assocFind, if_pos hpq] at h'
      injection h' with h'
      exact Or.inr h'.symm
    · rw [assocFind, if_neg hpq] at h'
      exact Or.inl h'

/-- A logger found after a fold of registrations was either present before or
carries the default state. -/
theorem foldl_ensure_new_default {p : List Nat} {d : LoggerData}
    (ps : List (List Nat)) (reg : LogRegistry)
    (h : findLogger (ps.foldl ensureLogger reg) p = some d) :
    findLogger reg p = some d ∨ d = defaultLoggerData := by
  induction ps generalizing reg with
  | nil => exact Or.inl h
  | cons a t ih =>
    rcases ih _ h with h1 | h1
    · exact ensure_new_default h1
    · exact Or.inr h1

/-- C10: a logger that did not exist before a lookup and exists afterwards
(whether looked up explicitly or created implicitly as an intermediate node)
has no sinks and level INFO. -/
theorem c10_default_logger {reg : LogRegistry} {p q : List Nat} {d : LoggerData}
    (habs : findLogger reg p = none)
    (h : findLogger (lookupLogger reg q) p = some d) :
    d.level = Level.INFO ∧ d.sinks = [] := by
  rcases foldl_ensure_new_default (ancestorPaths q) reg h with h1 | h1
  · rw [habs] at h1
    cases h1
  · rw [h1]
    exact ⟨rfl, rfl⟩

/-- Witness for C10: the intermediate logger implicitly created by a lookup
carries the default state. -/
theorem c10_witness : defaultLoggerData.level = Level.INFO ∧ defaultLoggerData.sinks = [] :=
  @c10_default_logger initialRegistry [1] [1, 2] defaultLoggerData
    (by decide) (by decide)

end Mordor
